import Mathlib

/-!
Verification of the world-simulation core of a block-voxel sandbox
(python-minecraft-clone, community edition).  The inspected source is the
driver `community/main.py`, which is embedded directly below (window event
handlers).  The world / mesher / ray-caster / persistence modules the driver
calls (`world`, `hit`, the save system) are not part of the inspected
sources, so they are modelled from the specification; every such definition
carries a doc comment starting with `Modelled from the spec:`.

Floating-point quantities of the original program (camera rotation, ray
positions) are embedded as exact rationals; machine integers as `Nat`/`Int`.
-/

/-- Block identifier: small unsigned integer, 0 is reserved as air. -/
abbrev BlockId := Nat

/-- Integer coordinate triple (world block coordinates and chunk-grid
coordinates). -/
abbrev IVec3 := Int × Int × Int

/-- Modelled from the spec: a Chunk (module `chunk`, absent from the
inspected sources) is a cube of side `S` holding `S ^ 3` block identifiers
plus a dirty flag.  The block storage is embedded as a total function on
local coordinates; the documented flat `(x*S + y)*S + z` order is realized
by the persistence layer below. -/
structure Chunk where
  blocks : Nat → Nat → Nat → BlockId
  dirty : Bool

/-- Modelled from the spec: the World Store (module `world`, absent from the
inspected sources) maps chunk-grid coordinates to chunks; at most one chunk
per coordinate (the association list keeps the first binding for a key). -/
structure World where
  side : Nat
  chunks : List (IVec3 × Chunk)

/-- Modelled from the spec: world coordinate to chunk-grid coordinate, by
floor division by the chunk side. -/
def get_chunk_position (S : Nat) (p : IVec3) : IVec3 :=
  (p.1.fdiv S, p.2.1.fdiv S, p.2.2.fdiv S)

/-- Modelled from the spec: world coordinate to chunk-local coordinate, by
(floor-division-compatible) modulo by the chunk side. -/
def get_local_position (S : Nat) (p : IVec3) : Nat × Nat × Nat :=
  ((p.1.emod S).toNat, (p.2.1.emod S).toNat, (p.2.2.emod S).toNat)

/-- First chunk bound to a coordinate in the chunk map. -/
def findChunk : List (IVec3 × Chunk) → IVec3 → Option Chunk
  | [], _ => none
  | (q, c) :: rest, cp => if q = cp then some c else findChunk rest cp

/-- Rewrite the first chunk bound to a coordinate (no-op if absent). -/
def updateChunk (cp : IVec3) (f : Chunk → Chunk) :
    List (IVec3 × Chunk) → List (IVec3 × Chunk)
  | [] => []
  | (q, c) :: rest =>
      if q = cp then (q, f c) :: rest else (q, c) :: updateChunk cp f rest

/-- Resolve the chunk at a coordinate, creating it from a default if absent,
and apply a rewrite to it. -/
def resolveChunk (cs : List (IVec3 × Chunk)) (cp : IVec3)
    (f : Chunk → Chunk) (dflt : Chunk) : List (IVec3 × Chunk) :=
  match findChunk cs cp with
  | some _ => updateChunk cp f cs
  | none => (cp, f dflt) :: cs

/-- Modelled from the spec: `get_block` returns 0 (air) if the chunk does
not exist, otherwise the stored block identifier; it never fails. -/
def World.get_block (w : World) (p : IVec3) : BlockId :=
  match findChunk w.chunks (get_chunk_position w.side p) with
  | none => 0
  | some c =>
      let l := get_local_position w.side p
      c.blocks l.1 l.2.1 l.2.2

/-- Modelled from the spec: `get_block_number` has the same contract as
`get_block` (read-only pick query). -/
def World.get_block_number (w : World) (p : IVec3) : BlockId :=
  w.get_block p

/-- A freshly created chunk defaults to all-air. -/
def newChunk : Chunk :=
  { blocks := fun _ _ _ => 0, dirty := false }

/-- Write one local block and mark the chunk dirty. -/
def setLocal (c : Chunk) (l : Nat × Nat × Nat) (v : BlockId) : Chunk :=
  { blocks := fun a b d =>
      if a = l.1 ∧ b = l.2.1 ∧ d = l.2.2 then v else c.blocks a b d,
    dirty := true }

/-- Mark the chunk at a coordinate dirty (no-op if absent). -/
def markDirty (cs : List (IVec3 × Chunk)) (cp : IVec3) :
    List (IVec3 × Chunk) :=
  updateChunk cp (fun c => { c with dirty := true }) cs

/-- Modelled from the spec: the chunk-grid coordinates of the neighbors that
share a face with a local coordinate sitting on a chunk boundary face. -/
def boundaryNeighbors (S : Nat) (cp : IVec3) (l : Nat × Nat × Nat) :
    List IVec3 :=
  (if l.1 = 0 then [(cp.1 - 1, cp.2.1, cp.2.2)] else []) ++
  (if l.1 = S - 1 then [(cp.1 + 1, cp.2.1, cp.2.2)] else []) ++
  (if l.2.1 = 0 then [(cp.1, cp.2.1 - 1, cp.2.2)] else []) ++
  (if l.2.1 = S - 1 then [(cp.1, cp.2.1 + 1, cp.2.2)] else []) ++
  (if l.2.2 = 0 then [(cp.1, cp.2.1, cp.2.2 - 1)] else []) ++
  (if l.2.2 = S - 1 then [(cp.1, cp.2.1, cp.2.2 + 1)] else [])

/-- Modelled from the spec: `set_block` resolves the chunk (creating it if
absent), writes the block, marks that chunk dirty, and marks every existing
neighbor across a touched boundary face dirty as well. -/
def World.set_block (w : World) (p : IVec3) (v : BlockId) : World :=
  let cp := get_chunk_position w.side p
  let l := get_local_position w.side p
  let base := resolveChunk w.chunks cp (fun c => setLocal c l v) newChunk
  { w with chunks := (boundaryNeighbors w.side cp l).foldl markDirty base }

theorem set_block_side (w : World) (p : IVec3) (v : BlockId) :
    (w.set_block p v).side = w.side := rfl

theorem set_block_chunks (w : World) (p : IVec3) (v : BlockId) :
    (w.set_block p v).chunks =
      (boundaryNeighbors w.side (get_chunk_position w.side p)
          (get_local_position w.side p)).foldl markDirty
        (resolveChunk w.chunks (get_chunk_position w.side p)
          (fun c => setLocal c (get_local_position w.side p) v) newChunk) :=
  rfl

theorem findChunk_updateChunk_self (cs : List (IVec3 × Chunk)) (a : IVec3)
    (f : Chunk → Chunk) :
    findChunk (updateChunk a f cs) a = (findChunk cs a).map f := by
  induction cs with
  | nil => simp [updateChunk, findChunk]
  | cons hd tl ih =>
      obtain ⟨k, c⟩ := hd
      by_cases hk : k = a
      · subst hk
        simp [updateChunk, findChunk]
      · simp [updateChunk, findChunk, hk, ih]

theorem findChunk_updateChunk_ne (cs : List (IVec3 × Chunk)) {a q : IVec3}
    (f : Chunk → Chunk) (h : a ≠ q) :
    findChunk (updateChunk a f cs) q = findChunk cs q := by
  induction cs with
  | nil => simp [updateChunk]
  | cons hd tl ih =>
      obtain ⟨k, c⟩ := hd
      by_cases hk : k = a
      · subst hk
        simp [updateChunk, findChunk, h, ih]
      · by_cases hq : k = q
        · subst hq
          simp [updateChunk, findChunk, hk]
        · simp [updateChunk, findChunk, hk, hq, ih]

theorem findChunk_resolveChunk_self (cs : List (IVec3 × Chunk)) (cp : IVec3)
    (f : Chunk → Chunk) (dflt : Chunk) :
    ∃ c0, findChunk (resolveChunk cs cp f dflt) cp = some (f c0) := by
  cases hfc : findChunk cs cp with
  | none =>
      exact ⟨dflt, by simp [resolveChunk, hfc, findChunk]⟩
  | some c =>
      refine ⟨c, ?_⟩
      simp [resolveChunk, hfc, findChunk_updateChunk_self]

theorem findChunk_resolveChunk_ne (cs : List (IVec3 × Chunk)) {cp q : IVec3}
    (f : Chunk → Chunk) (dflt : Chunk) (h : cp ≠ q) :
    findChunk (resolveChunk cs cp f dflt) q = findChunk cs q := by
  cases hfc : findChunk cs cp with
  | none => simp [resolveChunk, hfc, findChunk, h]
  | some c => simp [resolveChunk, hfc, findChunk_updateChunk_ne _ _ h]

theorem findChunk_markDirty (cs : List (IVec3 × Chunk)) (a q : IVec3) :
    findChunk (markDirty cs a) q =
      if a = q then (findChunk cs q).map (fun c => { c with dirty := true })
      else findChunk cs q := by
  by_cases h : a = q
  · subst h
    simp [markDirty, findChunk_updateChunk_self]
  · simp [markDirty, findChunk_updateChunk_ne _ _ h, h]

/-- Block contents are untouched by dirty-marking. -/
theorem blocks_findChunk_markDirty (cs : List (IVec3 × Chunk)) (a q : IVec3) :
    ((findChunk (markDirty cs a) q).map Chunk.blocks) =
      ((findChunk cs q).map Chunk.blocks) := by
  rw [findChunk_markDirty]
  by_cases h : a = q
  · rw [if_pos h, Option.map_map]
    rfl
  · rw [if_neg h]

theorem blocks_findChunk_foldl_markDirty (qs : List IVec3)
    (cs : List (IVec3 × Chunk)) (q : IVec3) :
    ((findChunk (qs.foldl markDirty cs) q).map Chunk.blocks) =
      ((findChunk cs q).map Chunk.blocks) := by
  induction qs generalizing cs with
  | nil => rfl
  | cons a qs ih => rw [List.foldl_cons, ih, blocks_findChunk_markDirty]

/-- C1: for every world coordinate `p` and block identifier `v`, writing `v`
at `p` with `set_block` and then reading `p` with `get_block` returns `v`. -/
theorem claim_C1_set_block_then_get_block (w : World) (p : IVec3)
    (v : BlockId) : (w.set_block p v).get_block p = v := by
  obtain ⟨c0, h0⟩ := findChunk_resolveChunk_self w.chunks
    (get_chunk_position w.side p)
    (fun c => setLocal c (get_local_position w.side p) v) newChunk
  have hmap := blocks_findChunk_foldl_markDirty
    (boundaryNeighbors w.side (get_chunk_position w.side p)
      (get_local_position w.side p))
    (resolveChunk w.chunks (get_chunk_position w.side p)
      (fun c => setLocal c (get_local_position w.side p) v) newChunk)
    (get_chunk_position w.side p)
  rw [h0] at hmap
  obtain ⟨c1, hc1, hb1⟩ := Option.map_eq_some'.mp hmap
  unfold World.get_block
  rw [set_block_side, set_block_chunks, hc1]
  simp only
  rw [hb1]
  simp [setLocal]

/-- C2: reading any world coordinate whose containing chunk does not exist
returns 0 (air); in particular the never-written world (empty chunk map)
returns air everywhere.  `get_block` is a total function, so it never
fails. -/
theorem claim_C2_get_block_missing_chunk_is_air :
    (∀ (w : World) (p : IVec3),
        findChunk w.chunks (get_chunk_position w.side p) = none →
        w.get_block p = 0) ∧
    (∀ (S : Nat) (p : IVec3), (World.mk S []).get_block p = 0) := by
  constructor
  · intro w p h
    unfold World.get_block
    rw [h]
  · intro S p
    unfold World.get_block
    simp [findChunk]

/-- Closed witness for C2 at a concrete input. -/
theorem claim_C2_witness :
    (World.mk 16 []).get_block (5, -3, 2) = 0 :=
  claim_C2_get_block_missing_chunk_is_air.1 (World.mk 16 []) (5, -3, 2) rfl

/-- The chunk map holds a chunk at this coordinate and it is dirty. -/
def DirtyAt (cs : List (IVec3 × Chunk)) (q : IVec3) : Prop :=
  ∃ c, findChunk cs q = some c ∧ c.dirty = true

theorem isSome_markDirty (cs : List (IVec3 × Chunk)) (a q : IVec3)
    (h : (findChunk cs q).isSome) : (findChunk (markDirty cs a) q).isSome := by
  rw [findChunk_markDirty]
  by_cases hq : a = q
  · simpa [hq] using h
  · simpa [hq] using h

theorem DirtyAt_markDirty_self (cs : List (IVec3 × Chunk)) (q : IVec3)
    (h : (findChunk cs q).isSome) : DirtyAt (markDirty cs q) q := by
  obtain ⟨c, hc⟩ := Option.isSome_iff_exists.mp h
  refine ⟨{ c with dirty := true }, ?_, rfl⟩
  rw [findChunk_markDirty, if_pos rfl, hc]
  rfl

theorem DirtyAt_markDirty_of (cs : List (IVec3 × Chunk)) (a q : IVec3)
    (h : DirtyAt cs q) : DirtyAt (markDirty cs a) q := by
  obtain ⟨c, hc, hd⟩ := h
  rw [DirtyAt, findChunk_markDirty]
  by_cases hq : a = q
  · exact ⟨{ c with dirty := true }, by rw [if_pos hq, hc]; rfl, rfl⟩
  · exact ⟨c, by rw [if_neg hq]; exact hc, hd⟩

theorem DirtyAt_foldl_markDirty_of (qs : List IVec3)
    (cs : List (IVec3 × Chunk)) (q : IVec3) (h : DirtyAt cs q) :
    DirtyAt (qs.foldl markDirty cs) q := by
  induction qs generalizing cs with
  | nil => exact h
  | cons a qs ih =>
      rw [List.foldl_cons]
      exact ih _ (DirtyAt_markDirty_of _ _ _ h)

theorem DirtyAt_foldl_markDirty_mem (qs : List IVec3) :
    ∀ (cs : List (IVec3 × Chunk)) (q : IVec3), q ∈ qs →
      (findChunk cs q).isSome → DirtyAt (qs.foldl markDirty cs) q := by
  induction qs with
  | nil =>
      intro cs q hmem _
      simp at hmem
  | cons a qs ih =>
      intro cs q hmem hsome
      rw [List.foldl_cons]
      rcases List.mem_cons.mp hmem with h | h
      · subst h
        exact DirtyAt_foldl_markDirty_of _ _ _ (DirtyAt_markDirty_self _ _ hsome)
      · exact ih _ _ h (isSome_markDirty _ _ _ hsome)

theorem DirtyAt_set_block_owner (w : World) (p : IVec3) (v : BlockId) :
    DirtyAt (w.set_block p v).chunks (get_chunk_position w.side p) := by
  obtain ⟨c0, h0⟩ := findChunk_resolveChunk_self w.chunks
    (get_chunk_position w.side p)
    (fun c => setLocal c (get_local_position w.side p) v) newChunk
  rw [set_block_chunks]
  exact DirtyAt_foldl_markDirty_of _ _ _ ⟨_, h0, rfl⟩

theorem DirtyAt_set_block_neighbor (w : World) (p : IVec3) (v : BlockId)
    (q : IVec3) (hmem : q ∈ boundaryNeighbors w.side
      (get_chunk_position w.side p) (get_local_position w.side p))
    (hne : get_chunk_position w.side p ≠ q)
    (hsome : (findChunk w.chunks q).isSome) :
    DirtyAt (w.set_block p v).chunks q := by
  rw [set_block_chunks]
  refine DirtyAt_foldl_markDirty_mem _ _ _ hmem ?_
  rw [findChunk_resolveChunk_ne _ _ _ hne]
  exact hsome

/-- C5: setting a block at a world coordinate whose chunk-local coordinate
lies on a chunk boundary face marks the owning chunk dirty, and also marks
dirty every existing neighbor chunk adjacent across such a boundary face. -/
theorem claim_C5_boundary_set_block_marks_both_chunks_dirty (w : World)
    (p : IVec3) (v : BlockId) :
    DirtyAt (w.set_block p v).chunks (get_chunk_position w.side p) ∧
    ((get_local_position w.side p).1 = 0 →
      (findChunk w.chunks ((get_chunk_position w.side p).1 - 1,
          (get_chunk_position w.side p).2.1,
          (get_chunk_position w.side p).2.2)).isSome →
        DirtyAt (w.set_block p v).chunks
          ((get_chunk_position w.side p).1 - 1,
           (get_chunk_position w.side p).2.1,
           (get_chunk_position w.side p).2.2)) ∧
    ((get_local_position w.side p).1 = w.side - 1 →
      (findChunk w.chunks ((get_chunk_position w.side p).1 + 1,
          (get_chunk_position w.side p).2.1,
          (get_chunk_position w.side p).2.2)).isSome →
        DirtyAt (w.set_block p v).chunks
          ((get_chunk_position w.side p).1 + 1,
           (get_chunk_position w.side p).2.1,
           (get_chunk_position w.side p).2.2)) ∧
    ((get_local_position w.side p).2.1 = 0 →
      (findChunk w.chunks ((get_chunk_position w.side p).1,
          (get_chunk_position w.side p).2.1 - 1,
          (get_chunk_position w.side p).2.2)).isSome →
        DirtyAt (w.set_block p v).chunks
          ((get_chunk_position w.side p).1,
           (get_chunk_position w.side p).2.1 - 1,
           (get_chunk_position w.side p).2.2)) ∧
    ((get_local_position w.side p).2.1 = w.side - 1 →
      (findChunk w.chunks ((get_chunk_position w.side p).1,
          (get_chunk_position w.side p).2.1 + 1,
          (get_chunk_position w.side p).2.2)).isSome →
        DirtyAt (w.set_block p v).chunks
          ((get_chunk_position w.side p).1,
           (get_chunk_position w.side p).2.1 + 1,
           (get_chunk_position w.side p).2.2)) ∧
    ((get_local_position w.side p).2.2 = 0 →
      (findChunk w.chunks ((get_chunk_position w.side p).1,
          (get_chunk_position w.side p).2.1,
          (get_chunk_position w.side p).2.2 - 1)).isSome →
        DirtyAt (w.set_block p v).chunks
          ((get_chunk_position w.side p).1,
           (get_chunk_position w.side p).2.1,
           (get_chunk_position w.side p).2.2 - 1)) ∧
    ((get_local_position w.side p).2.2 = w.side - 1 →
      (findChunk w.chunks ((get_chunk_position w.side p).1,
          (get_chunk_position w.side p).2.1,
          (get_chunk_position w.side p).2.2 + 1)).isSome →
        DirtyAt (w.set_block p v).chunks
          ((get_chunk_position w.side p).1,
           (get_chunk_position w.side p).2.1,
           (get_chunk_position w.side p).2.2 + 1)) := by
  refine ⟨DirtyAt_set_block_owner w p v, ?_, ?_, ?_, ?_, ?_, ?_⟩ <;>
    intro hface hsome <;>
    refine DirtyAt_set_block_neighbor w p v _ ?_ ?_ hsome
  · simp [boundaryNeighbors, hface]
  · intro h
    simp [Prod.ext_iff] at h
    all_goals omega
  · simp [boundaryNeighbors, hface]
  · intro h
    simp [Prod.ext_iff] at h
    all_goals omega
  · simp [boundaryNeighbors, hface]
  · intro h
    simp [Prod.ext_iff] at h
    all_goals omega
  · simp [boundaryNeighbors, hface]
  · intro h
    simp [Prod.ext_iff] at h
    all_goals omega
  · simp [boundaryNeighbors, hface]
  · intro h
    simp [Prod.ext_iff] at h
    all_goals omega
  · simp [boundaryNeighbors, hface]
  · intro h
    simp [Prod.ext_iff] at h
    all_goals omega

/-- Closed witness for C5: a write at world coordinate (0,0,0) of a 16-sided
world marks both the owning chunk (0,0,0) and the pre-existing neighbor
chunk (-1,0,0) dirty. -/
theorem claim_C5_witness :
    DirtyAt ((World.mk 16 [((-1, 0, 0), newChunk)]).set_block (0, 0, 0)
      5).chunks (get_chunk_position (16 : Nat) ((0 : Int), 0, 0)) ∧
    DirtyAt ((World.mk 16 [((-1, 0, 0), newChunk)]).set_block (0, 0, 0)
      5).chunks ((get_chunk_position (16 : Nat) ((0 : Int), 0, 0)).1 - 1,
        (get_chunk_position (16 : Nat) ((0 : Int), 0, 0)).2.1,
        (get_chunk_position (16 : Nat) ((0 : Int), 0, 0)).2.2) :=
  ⟨(claim_C5_boundary_set_block_marks_both_chunks_dirty
      (World.mk 16 [((-1, 0, 0), newChunk)]) ((0 : Int), 0, 0) 5).1,
   (claim_C5_boundary_set_block_marks_both_chunks_dirty
      (World.mk 16 [((-1, 0, 0), newChunk)]) ((0 : Int), 0, 0) 5).2.1
      (by decide) (by decide)⟩

/-- The six axis-aligned face directions, in a fixed documented order
(+x, -x, +y, -y, +z, -z). -/
def faceDirs : List IVec3 :=
  [(1, 0, 0), (-1, 0, 0), (0, 1, 0), (0, -1, 0), (0, 0, 1), (0, 0, -1)]

/-- Modelled from the spec: the voxel adjacent to local position `(x,y,z)`
across face `d` — inside the same chunk when in bounds, otherwise inside
the neighbor chunk in direction `d` (none when that chunk is not loaded). -/
def adjacentBlock (S : Nat) (c : Chunk) (nl : IVec3 → Option Chunk)
    (x y z : Nat) (d : IVec3) : Option BlockId :=
  if 0 ≤ (x : Int) + d.1 ∧ (x : Int) + d.1 < (S : Int) ∧
      0 ≤ (y : Int) + d.2.1 ∧ (y : Int) + d.2.1 < (S : Int) ∧
      0 ≤ (z : Int) + d.2.2 ∧ (z : Int) + d.2.2 < (S : Int) then
    some (c.blocks ((x : Int) + d.1).toNat ((y : Int) + d.2.1).toNat
      ((z : Int) + d.2.2).toNat)
  else
    match nl d with
    | none => none
    | some nc =>
        some (nc.blocks (((x : Int) + d.1).emod S).toNat
          (((y : Int) + d.2.1).emod S).toNat
          (((z : Int) + d.2.2).emod S).toNat)

/-- Modelled from the spec: conservative face culling — a face is drawn
exactly when the adjacent voxel is air or its chunk is not loaded. -/
def faceVisible (S : Nat) (c : Chunk) (nl : IVec3 → Option Chunk)
    (x y z : Nat) (d : IVec3) : Bool :=
  match adjacentBlock S c nl x y z d with
  | none => true
  | some b => decide (b = 0)

/-- All local voxel positions of a chunk, in x-major order. -/
def allPositions (S : Nat) : List (Nat × Nat × Nat) :=
  List.range S ×ˢ (List.range S ×ˢ List.range S)

/-- Modelled from the spec: for every non-air voxel and each of its six
faces, emit the face when the adjacent voxel is air or not loaded. -/
def emittedFaces (S : Nat) (c : Chunk) (nl : IVec3 → Option Chunk) :
    List ((Nat × Nat × Nat) × IVec3) :=
  (allPositions S).flatMap fun p =>
    if c.blocks p.1 p.2.1 p.2.2 ≠ 0 then
      (faceDirs.filter (faceVisible S c nl p.1 p.2.1 p.2.2)).map fun d =>
        (p, d)
    else []

/-- One mesh vertex: position, texture-array layer (block id + face
direction), uv corner. -/
structure Vertex where
  position : IVec3
  texLayer : Nat
  uv : Nat × Nat

/-- Renderable geometry of one chunk. -/
structure MeshData where
  vertices : List Vertex
  indices : List Nat

/-- Corner offsets of each face of the unit cube. -/
def faceCorners (d : IVec3) : List IVec3 :=
  if d = (1, 0, 0) then [(1, 0, 0), (1, 1, 0), (1, 1, 1), (1, 0, 1)]
  else if d = (-1, 0, 0) then [(0, 0, 0), (0, 0, 1), (0, 1, 1), (0, 1, 0)]
  else if d = (0, 1, 0) then [(0, 1, 0), (0, 1, 1), (1, 1, 1), (1, 1, 0)]
  else if d = (0, -1, 0) then [(0, 0, 0), (1, 0, 0), (1, 0, 1), (0, 0, 1)]
  else if d = (0, 0, 1) then [(0, 0, 1), (1, 0, 1), (1, 1, 1), (0, 1, 1)]
  else if d = (0, 0, -1) then [(0, 0, 0), (0, 1, 0), (1, 1, 0), (1, 0, 0)]
  else []

/-- The four uv corners of a face. -/
def uvCorners : List (Nat × Nat) := [(0, 0), (1, 0), (1, 1), (0, 1)]

/-- The four vertices of one emitted face, offset by the voxel position. -/
def faceVertices (b : BlockId) (p : Nat × Nat × Nat) (d : IVec3) :
    List Vertex :=
  ((faceCorners d).zip uvCorners).map fun oc =>
    { position := ((p.1 : Int) + oc.1.1, (p.2.1 : Int) + oc.1.2.1,
        (p.2.2 : Int) + oc.1.2.2),
      texLayer := 6 * b + faceDirs.indexOf d,
      uv := oc.2 }

/-- Modelled from the spec: `build_mesh` is a pure transformation of a chunk
and its neighbor lookup into vertex and index buffers; each emitted face
contributes 4 vertices and 6 indices (two triangles). -/
def build_mesh (S : Nat) (c : Chunk) (nl : IVec3 → Option Chunk) :
    MeshData :=
  { vertices := (emittedFaces S c nl).flatMap fun f =>
      faceVertices (c.blocks f.1.1 f.1.2.1 f.1.2.2) f.1 f.2,
    indices := (List.range (emittedFaces S c nl).length).flatMap fun k =>
      [4 * k, 4 * k + 1, 4 * k + 2, 4 * k, 4 * k + 2, 4 * k + 3] }

theorem flatMap_congr {α β : Type} (l : List α) (f g : α → List β)
    (h : ∀ a ∈ l, f a = g a) : l.flatMap f = l.flatMap g := by
  induction l with
  | nil => rfl
  | cons hd tl ih =>
      simp only [List.flatMap_cons]
      rw [h hd (List.mem_cons_self _ _), ih fun a ha => h a (List.mem_cons_of_mem _ ha)]

theorem flatMap_eq_nil_of {α β : Type} (l : List α) (f : α → List β)
    (h : ∀ a ∈ l, f a = []) : l.flatMap f = [] := by
  induction l with
  | nil => rfl
  | cons hd tl ih =>
      simp only [List.flatMap_cons]
      rw [h hd (List.mem_cons_self _ _), ih fun a ha => h a (List.mem_cons_of_mem _ ha)]
      rfl

theorem length_flatMap_single {α β : Type} (l : List α)
    (f : α → List β) (a : α) (h0 : ∀ b ∈ l, b ≠ a → f b = [])
    (hmem : a ∈ l) (hnd : l.Nodup) :
    (l.flatMap f).length = (f a).length := by
  induction l with
  | nil => simp at hmem
  | cons hd tl ih =>
      obtain ⟨hhd, hndtl⟩ := List.nodup_cons.mp hnd
      rcases List.mem_cons.mp hmem with h | h
      · subst h
        have : tl.flatMap f = [] := by
          refine flatMap_eq_nil_of _ _ fun b hb => ?_
          exact h0 b (List.mem_cons_of_mem _ hb)
            fun hba => hhd (hba ▸ hb)
        simp [List.flatMap_cons, this]
      · have hne : hd ≠ a := fun he => hhd (he ▸ h)
        have : f hd = [] := h0 hd (List.mem_cons_self _ _) hne
        simp only [List.flatMap_cons, this, List.nil_append]
        exact ih (fun b hb => h0 b (List.mem_cons_of_mem _ hb)) h hndtl

theorem length_flatMap_pair {α β : Type} (l : List α)
    (f : α → List β) (a b : α) (hab : a ≠ b)
    (h0 : ∀ x ∈ l, x ≠ a → x ≠ b → f x = [])
    (ha : a ∈ l) (hb : b ∈ l) (hnd : l.Nodup) :
    (l.flatMap f).length = (f a).length + (f b).length := by
  induction l with
  | nil => simp at ha
  | cons hd tl ih =>
      obtain ⟨hhd, hndtl⟩ := List.nodup_cons.mp hnd
      by_cases hda : hd = a
      · subst hda
        have hbtl : b ∈ tl := by
          rcases List.mem_cons.mp hb with h | h
          · exact absurd h.symm hab
          · exact h
        have : (tl.flatMap f).length = (f b).length := by
          refine length_flatMap_single tl f b (fun x hx hxb => ?_) hbtl hndtl
          exact h0 x (List.mem_cons_of_mem _ hx)
            (fun hxa => hhd (hxa ▸ hx)) hxb
        simp [List.flatMap_cons, this]
      · by_cases hdb : hd = b
        · subst hdb
          have hatl : a ∈ tl := by
            rcases List.mem_cons.mp ha with h | h
            · exact absurd h hab
            · exact h
          have : (tl.flatMap f).length = (f a).length := by
            refine length_flatMap_single tl f a (fun x hx hxa => ?_) hatl hndtl
            exact h0 x (List.mem_cons_of_mem _ hx) hxa
              fun hxb => hhd (hxb ▸ hx)
          simp [List.flatMap_cons, this]
          omega
        · have hatl : a ∈ tl := by
            rcases List.mem_cons.mp ha with h | h
            · exact absurd h.symm hda
            · exact h
          have hbtl : b ∈ tl := by
            rcases List.mem_cons.mp hb with h | h
            · exact absurd h.symm hdb
            · exact h
          have : f hd = [] := h0 hd (List.mem_cons_self _ _) hda hdb
          simp only [List.flatMap_cons, this, List.nil_append]
          exact ih (fun x hx => h0 x (List.mem_cons_of_mem _ hx)) hatl hbtl hndtl

theorem faceVisible_eq_true_iff (S : Nat) (c : Chunk)
    (nl : IVec3 → Option Chunk) (x y z : Nat) (d : IVec3) :
    faceVisible S c nl x y z d = true ↔
      adjacentBlock S c nl x y z d = none ∨
      adjacentBlock S c nl x y z d = some 0 := by
  cases h : adjacentBlock S c nl x y z d with
  | none => simp [faceVisible, h]
  | some b => simp [faceVisible, h]

theorem mem_allPositions (S : Nat) (x y z : Nat) :
    (x, y, z) ∈ allPositions S ↔ x < S ∧ y < S ∧ z < S := by
  simp [allPositions, List.mem_product, List.mem_range]

theorem nodup_allPositions (S : Nat) : (allPositions S).Nodup :=
  List.Nodup.product (List.nodup_range S)
    (List.Nodup.product (List.nodup_range S) (List.nodup_range S))

/-- Membership characterization: a face is emitted exactly for an in-bounds
non-air voxel whose adjacent voxel across that face is air or belongs to a
chunk that is not loaded. -/
theorem mem_emittedFaces (S : Nat) (c : Chunk) (nl : IVec3 → Option Chunk)
    (x y z : Nat) (d : IVec3) :
    ((x, y, z), d) ∈ emittedFaces S c nl ↔
      x < S ∧ y < S ∧ z < S ∧ d ∈ faceDirs ∧ c.blocks x y z ≠ 0 ∧
        (adjacentBlock S c nl x y z d = none ∨
         adjacentBlock S c nl x y z d = some 0) := by
  unfold emittedFaces
  rw [List.mem_flatMap]
  constructor
  · rintro ⟨p, hp, hmem⟩
    by_cases hb : c.blocks p.1 p.2.1 p.2.2 ≠ 0
    · rw [if_pos hb] at hmem
      obtain ⟨d', hd', heq⟩ := List.mem_map.mp hmem
      rw [Prod.mk.injEq] at heq
      obtain ⟨h1, h2⟩ := heq
      subst h1
      rw [h2] at hd'
      obtain ⟨hdmem, hvis⟩ := List.mem_filter.mp hd'
      obtain ⟨hx, hy, hz⟩ := (mem_allPositions S x y z).mp hp
      refine ⟨hx, hy, hz, hdmem, ?_,
        (faceVisible_eq_true_iff S c nl x y z d).mp hvis⟩
      simpa using hb
    · rw [if_neg hb] at hmem
      simp at hmem
  · rintro ⟨hx, hy, hz, hd, hb, hvis⟩
    refine ⟨(x, y, z), (mem_allPositions S x y z).mpr ⟨hx, hy, hz⟩, ?_⟩
    rw [if_pos hb]
    exact List.mem_map.mpr ⟨d, List.mem_filter.mpr
      ⟨hd, (faceVisible_eq_true_iff S c nl x y z d).mpr hvis⟩, rfl⟩

theorem length_flatMap_const {α β : Type} (l : List α) (g : α → List β)
    (k : Nat) (h : ∀ a ∈ l, (g a).length = k) :
    (l.flatMap g).length = k * l.length := by
  induction l with
  | nil => simp
  | cons hd tl ih =>
      rw [List.flatMap_cons, List.length_append,
        h hd (List.mem_cons_self _ _),
        ih fun a ha => h a (List.mem_cons_of_mem _ ha),
        List.length_cons, Nat.mul_succ]
      omega

theorem length_faceVertices (b : BlockId) (p : Nat × Nat × Nat) (d : IVec3)
    (hd : d ∈ faceDirs) : (faceVertices b p d).length = 4 := by
  simp only [faceDirs, List.mem_cons, List.not_mem_nil, or_false] at hd
  rcases hd with rfl | rfl | rfl | rfl | rfl | rfl <;>
    simp [faceVertices, faceCorners, uvCorners]

theorem length_vertices_build_mesh (S : Nat) (c : Chunk)
    (nl : IVec3 → Option Chunk) :
    (build_mesh S c nl).vertices.length = 4 * (emittedFaces S c nl).length := by
  refine length_flatMap_const _ _ 4 fun f hf => ?_
  obtain ⟨⟨x, y, z⟩, d⟩ := f
  exact length_faceVertices _ _ _ ((mem_emittedFaces S c nl x y z d).mp
    hf).2.2.2.1

theorem length_indices_build_mesh (S : Nat) (c : Chunk)
    (nl : IVec3 → Option Chunk) :
    (build_mesh S c nl).indices.length = 6 * (emittedFaces S c nl).length := by
  rw [show (build_mesh S c nl).indices =
      (List.range (emittedFaces S c nl).length).flatMap (fun k =>
        [4 * k, 4 * k + 1, 4 * k + 2, 4 * k, 4 * k + 2, 4 * k + 3]) from rfl,
    length_flatMap_const (List.range (emittedFaces S c nl).length)
      (fun k => [4 * k, 4 * k + 1, 4 * k + 2, 4 * k, 4 * k + 2, 4 * k + 3]) 6
      (fun k _ => rfl), List.length_range]

theorem emittedFaces_nil_of_air (S : Nat) (c : Chunk)
    (nl : IVec3 → Option Chunk)
    (h : ∀ x y z, x < S → y < S → z < S → c.blocks x y z = 0) :
    emittedFaces S c nl = [] := by
  refine flatMap_eq_nil_of _ _ fun p hp => ?_
  obtain ⟨x, y, z⟩ := p
  obtain ⟨hx, hy, hz⟩ := (mem_allPositions S x y z).mp hp
  simp [h x y z hx hy hz]

theorem build_mesh_air (S : Nat) (c : Chunk) (nl : IVec3 → Option Chunk)
    (h : ∀ x y z, x < S → y < S → z < S → c.blocks x y z = 0) :
    build_mesh S c nl = ⟨[], []⟩ := by
  unfold build_mesh
  rw [emittedFaces_nil_of_air S c nl h]
  rfl

/-- A 16-sided chunk whose only solid voxel sits at local (8,8,8). -/
def soloChunk : Chunk :=
  { blocks := fun x y z => if x = 8 ∧ y = 8 ∧ z = 8 then 1 else 0,
    dirty := true }

/-- A 16-sided chunk with two face-adjacent solid voxels at local (8,8,8)
and (9,8,8). -/
def pairChunk : Chunk :=
  { blocks := fun x y z =>
      if (x = 8 ∨ x = 9) ∧ y = 8 ∧ z = 8 then 1 else 0,
    dirty := true }

/-- No neighbor chunk is loaded. -/
def noNeighbors : IVec3 → Option Chunk := fun _ => none

theorem emittedFaces_solo_len :
    (emittedFaces 16 soloChunk noNeighbors).length = 6 := by
  unfold emittedFaces
  refine Eq.trans (length_flatMap_single _ _ ((8, 8, 8) : Nat × Nat × Nat)
    ?_ ?_ (nodup_allPositions 16)) ?_
  · intro b hb hne
    obtain ⟨bx, yb, bz⟩ := b
    have hnb : ¬(bx = 8 ∧ yb = 8 ∧ bz = 8) := by
      intro hh
      exact hne (by simp [hh.1, hh.2.1, hh.2.2])
    simp [soloChunk, hnb]
  · exact (mem_allPositions 16 8 8 8).mpr (by norm_num)
  · decide

theorem emittedFaces_pair_len :
    (emittedFaces 16 pairChunk noNeighbors).length = 10 := by
  unfold emittedFaces
  refine Eq.trans (length_flatMap_pair _ _ ((8, 8, 8) : Nat × Nat × Nat)
    ((9, 8, 8) : Nat × Nat × Nat) (by decide) ?_ ?_ ?_
    (nodup_allPositions 16)) ?_
  · intro q hq hqa hqb
    obtain ⟨qx, qy, qz⟩ := q
    have hnb : ¬((qx = 8 ∨ qx = 9) ∧ qy = 8 ∧ qz = 8) := by
      intro hh
      rcases hh.1 with h8 | h9
      · exact hqa (by simp [h8, hh.2.1, hh.2.2])
      · exact hqb (by simp [h9, hh.2.1, hh.2.2])
    simp [pairChunk, hnb]
  · exact (mem_allPositions 16 8 8 8).mpr (by norm_num)
  · exact (mem_allPositions 16 9 8 8).mpr (by norm_num)
  · decide

/-- C3: `build_mesh` emits a voxel face exactly when the adjacent voxel is
air or its chunk is not loaded; consequently a fully air chunk yields an
empty mesh, a single solid voxel with air/unloaded surroundings yields
exactly 6 faces (24 vertices, 36 indices), and two face-adjacent solid
voxels in one chunk yield 10 faces. -/
theorem claim_C3_face_culling_and_counts :
    (∀ (S : Nat) (c : Chunk) (nl : IVec3 → Option Chunk) (x y z : Nat)
        (d : IVec3),
      ((x, y, z), d) ∈ emittedFaces S c nl ↔
        x < S ∧ y < S ∧ z < S ∧ d ∈ faceDirs ∧ c.blocks x y z ≠ 0 ∧
          (adjacentBlock S c nl x y z d = none ∨
           adjacentBlock S c nl x y z d = some 0)) ∧
    (∀ (S : Nat) (c : Chunk) (nl : IVec3 → Option Chunk),
      (∀ x y z, x < S → y < S → z < S → c.blocks x y z = 0) →
      build_mesh S c nl = ⟨[], []⟩) ∧
    ((emittedFaces 16 soloChunk noNeighbors).length = 6 ∧
     (build_mesh 16 soloChunk noNeighbors).vertices.length = 24 ∧
     (build_mesh 16 soloChunk noNeighbors).indices.length = 36) ∧
    ((emittedFaces 16 pairChunk noNeighbors).length = 10 ∧
     (build_mesh 16 pairChunk noNeighbors).vertices.length = 40 ∧
     (build_mesh 16 pairChunk noNeighbors).indices.length = 60) := by
  refine ⟨mem_emittedFaces, build_mesh_air,
    ⟨emittedFaces_solo_len, ?_, ?_⟩,
    ⟨emittedFaces_pair_len, ?_, ?_⟩⟩
  · rw [length_vertices_build_mesh, emittedFaces_solo_len]
  · rw [length_indices_build_mesh, emittedFaces_solo_len]
  · rw [length_vertices_build_mesh, emittedFaces_pair_len]
  · rw [length_indices_build_mesh, emittedFaces_pair_len]

/-- Closed witness for C3: the fully-air fresh chunk produces the empty
mesh. -/
theorem claim_C3_witness :
    build_mesh 1 newChunk noNeighbors = ⟨[], []⟩ :=
  claim_C3_face_culling_and_counts.2.1 1 newChunk noNeighbors
    fun _ _ _ _ _ _ => rfl

theorem adjacentBlock_congr (S : Nat) (hS : 0 < S) (c1 c2 : Chunk)
    (nl1 nl2 : IVec3 → Option Chunk)
    (hc : ∀ x y z, x < S → y < S → z < S → c1.blocks x y z = c2.blocks x y z)
    (hnl : ∀ d, (nl1 d = none ∧ nl2 d = none) ∨
      ∃ n1 n2, nl1 d = some n1 ∧ nl2 d = some n2 ∧
        ∀ x y z, x < S → y < S → z < S → n1.blocks x y z = n2.blocks x y z)
    (x y z : Nat) (d : IVec3) :
    adjacentBlock S c1 nl1 x y z d = adjacentBlock S c2 nl2 x y z d := by
  have hSpos : (0 : Int) < (S : Int) := by exact_mod_cast hS
  have hSne : (S : Int) ≠ 0 := ne_of_gt hSpos
  unfold adjacentBlock
  by_cases h : 0 ≤ (x : Int) + d.1 ∧ (x : Int) + d.1 < (S : Int) ∧
      0 ≤ (y : Int) + d.2.1 ∧ (y : Int) + d.2.1 < (S : Int) ∧
      0 ≤ (z : Int) + d.2.2 ∧ (z : Int) + d.2.2 < (S : Int)
  · rw [if_pos h, if_pos h]
    obtain ⟨h1, h2, h3, h4, h5, h6⟩ := h
    rw [hc _ _ _ ((Int.toNat_lt h1).mpr h2) ((Int.toNat_lt h3).mpr h4)
      ((Int.toNat_lt h5).mpr h6)]
  · rw [if_neg h, if_neg h]
    rcases hnl d with ⟨hn1, hn2⟩ | ⟨n1, n2, hn1, hn2, hn⟩
    · rw [hn1, hn2]
    · rw [hn1, hn2]
      dsimp only
      congr 1
      exact hn _ _ _
        ((Int.toNat_lt (Int.emod_nonneg _ hSne)).mpr (Int.emod_lt_of_pos _ hSpos))
        ((Int.toNat_lt (Int.emod_nonneg _ hSne)).mpr (Int.emod_lt_of_pos _ hSpos))
        ((Int.toNat_lt (Int.emod_nonneg _ hSne)).mpr (Int.emod_lt_of_pos _ hSpos))

theorem faceVisible_congr (S : Nat) (hS : 0 < S) (c1 c2 : Chunk)
    (nl1 nl2 : IVec3 → Option Chunk)
    (hc : ∀ x y z, x < S → y < S → z < S → c1.blocks x y z = c2.blocks x y z)
    (hnl : ∀ d, (nl1 d = none ∧ nl2 d = none) ∨
      ∃ n1 n2, nl1 d = some n1 ∧ nl2 d = some n2 ∧
        ∀ x y z, x < S → y < S → z < S → n1.blocks x y z = n2.blocks x y z)
    (x y z : Nat) (d : IVec3) :
    faceVisible S c1 nl1 x y z d = faceVisible S c2 nl2 x y z d := by
  unfold faceVisible
  rw [adjacentBlock_congr S hS c1 c2 nl1 nl2 hc hnl x y z d]

theorem emittedFaces_congr (S : Nat) (hS : 0 < S) (c1 c2 : Chunk)
    (nl1 nl2 : IVec3 → Option Chunk)
    (hc : ∀ x y z, x < S → y < S → z < S → c1.blocks x y z = c2.blocks x y z)
    (hnl : ∀ d, (nl1 d = none ∧ nl2 d = none) ∨
      ∃ n1 n2, nl1 d = some n1 ∧ nl2 d = some n2 ∧
        ∀ x y z, x < S → y < S → z < S → n1.blocks x y z = n2.blocks x y z) :
    emittedFaces S c1 nl1 = emittedFaces S c2 nl2 := by
  refine flatMap_congr _ _ _ fun p hp => ?_
  obtain ⟨x, y, z⟩ := p
  obtain ⟨hx, hy, hz⟩ := (mem_allPositions S x y z).mp hp
  dsimp only
  rw [hc x y z hx hy hz,
    List.filter_congr fun d _ => faceVisible_congr S hS c1 c2 nl1 nl2 hc hnl
      x y z d]

/-- C7: mesh building is deterministic — two builds on identical chunk
contents and identical neighbor-chunk contents yield identical vertex
sequences and identical index sequences. -/
theorem claim_C7_build_mesh_deterministic (S : Nat) (hS : 0 < S)
    (c1 c2 : Chunk) (nl1 nl2 : IVec3 → Option Chunk)
    (hc : ∀ x y z, x < S → y < S → z < S → c1.blocks x y z = c2.blocks x y z)
    (hnl : ∀ d, (nl1 d = none ∧ nl2 d = none) ∨
      ∃ n1 n2, nl1 d = some n1 ∧ nl2 d = some n2 ∧
        ∀ x y z, x < S → y < S → z < S → n1.blocks x y z = n2.blocks x y z) :
    build_mesh S c1 nl1 = build_mesh S c2 nl2 := by
  have hef := emittedFaces_congr S hS c1 c2 nl1 nl2 hc hnl
  unfold build_mesh
  rw [hef]
  simp only [MeshData.mk.injEq]
  refine ⟨?_, trivial⟩
  refine flatMap_congr _ _ _ fun f hf => ?_
  obtain ⟨⟨x, y, z⟩, d⟩ := f
  obtain ⟨hx, hy, hz, _, _, _⟩ := (mem_emittedFaces S c2 nl2 x y z d).mp hf
  dsimp only
  rw [hc x y z hx hy hz]

/-- Closed witness for C7 at a concrete input: two one-sided chunks with the
same (all-air) contents but different dirty flags, with no loaded neighbors,
build the same mesh. -/
theorem claim_C7_witness :
    build_mesh 1 (Chunk.mk (fun _ _ _ => 0) true) noNeighbors =
      build_mesh 1 (Chunk.mk (fun _ _ _ => 0) false) noNeighbors :=
  claim_C7_build_mesh_deterministic 1 (by decide)
    (Chunk.mk (fun _ _ _ => 0) true) (Chunk.mk (fun _ _ _ => 0) false)
    noNeighbors noNeighbors (fun _ _ _ _ _ _ => rfl)
    (fun _ => Or.inl ⟨rfl, rfl⟩)

/-- Modelled from the spec: the on-disk format version constant of the
persistence layer. -/
def FORMAT_VERSION : Int := 1

/-- Documented flat addressing of a chunk's block array. -/
def flatIndex (S x y z : Nat) : Nat := (x * S + y) * S + z

/-- Modelled from the spec: a chunk's `S ^ 3` block identifiers listed in
the documented flat `(x*S + y)*S + z` order. -/
def serializeBlocks (S : Nat) (c : Chunk) : List Int :=
  List.ofFn fun i : Fin (S * S * S) =>
    (c.blocks ((i : Nat) / (S * S)) (((i : Nat) / S) % S) ((i : Nat) % S) : Int)

/-- Modelled from the spec: one record is a chunk coordinate triple followed
by the flat block array. -/
def encodeRecord (S : Nat) (e : IVec3 × Chunk) : List Int :=
  e.1.1 :: e.1.2.1 :: e.1.2.2 :: serializeBlocks S e.2

/-- Modelled from the spec: `save` serializes a header (format version and
chunk side) followed by one record per existing chunk. -/
def save (w : World) : List Int :=
  FORMAT_VERSION :: (w.side : Int) :: w.chunks.flatMap (encodeRecord w.side)

/-- Rebuild a chunk's block function from flat data (missing entries read as
air). -/
def decodeBlocks (S : Nat) (data : List Int) : Nat → Nat → Nat → BlockId :=
  fun x y z => (data.getD (flatIndex S x y z) 0).toNat

/-- Modelled from the spec: parse the record section of a save file, failing
closed on truncated data.  The fuel argument (an upper bound on the record
count) makes the recursion structural. -/
def parseRecords (S : Nat) : Nat → List Int →
    Except String (List (IVec3 × Chunk))
  | _, [] => Except.ok []
  | 0, _ :: _ => Except.error "truncated save data"
  | fuel + 1, cx :: cy :: cz :: rest =>
      if S * S * S ≤ rest.length then
        match parseRecords S fuel (rest.drop (S * S * S)) with
        | Except.ok cs =>
            Except.ok (((cx, cy, cz),
              Chunk.mk (decodeBlocks S (rest.take (S * S * S))) true) :: cs)
        | Except.error e => Except.error e
      else Except.error "truncated record"
  | _ + 1, [_] => Except.error "truncated record"
  | _ + 1, [_, _] => Except.error "truncated record"

/-- Modelled from the spec: `load` checks the header, fails closed on an
unsupported format version or malformed data, and otherwise rebuilds the
whole chunk map. -/
def load (data : List Int) : Except String World :=
  match data with
  | v :: s :: rest =>
      if v = FORMAT_VERSION then
        if 0 < s then
          match parseRecords s.toNat rest.length rest with
          | Except.ok cs => Except.ok (World.mk s.toNat cs)
          | Except.error e => Except.error e
        else Except.error "invalid chunk side"
      else Except.error "unsupported format version"
  | _ => Except.error "missing header"

theorem flatIndex_lt (S x y z : Nat) (hx : x < S) (hy : y < S) (hz : z < S) :
    flatIndex S x y z < S * S * S := by
  unfold flatIndex
  have h1 : x * S + y + 1 ≤ S * S := by
    have h2 : (x + 1) * S ≤ S * S := Nat.mul_le_mul_right S hx
    have h3 : (x + 1) * S = x * S + S := by ring
    omega
  have h4 : (x * S + y + 1) * S = (x * S + y) * S + S := by ring
  have h5 : (x * S + y + 1) * S ≤ (S * S) * S := Nat.mul_le_mul_right S h1
  have h6 : S * S * S = (S * S) * S := rfl
  omega

theorem length_serializeBlocks (S : Nat) (c : Chunk) :
    (serializeBlocks S c).length = S * S * S := by
  unfold serializeBlocks
  exact List.length_ofFn _

theorem decode_serialize (S : Nat) (c : Chunk) (x y z : Nat) (hx : x < S)
    (hy : y < S) (hz : z < S) :
    decodeBlocks S (serializeBlocks S c) x y z = c.blocks x y z := by
  have hS : 0 < S := by omega
  have hSS : 0 < S * S := Nat.mul_pos hS hS
  have hlt : flatIndex S x y z < S * S * S := flatIndex_lt S x y z hx hy hz
  have hlen : flatIndex S x y z < (serializeBlocks S c).length := by
    rw [length_serializeBlocks]
    exact hlt
  have hrlt : y * S + z < S * S := by
    have h2 : (y + 1) * S ≤ S * S := Nat.mul_le_mul_right S hy
    have h3 : (y + 1) * S = y * S + S := by ring
    omega
  have hsplit : flatIndex S x y z = (y * S + z) + (S * S) * x := by
    unfold flatIndex
    ring
  have hsplit2 : flatIndex S x y z = z + S * (x * S + y) := by
    unfold flatIndex
    ring
  have hxx : flatIndex S x y z / (S * S) = x := by
    rw [hsplit, Nat.add_mul_div_left _ _ hSS, Nat.div_eq_of_lt hrlt,
      Nat.zero_add]
  have hdivS : flatIndex S x y z / S = x * S + y := by
    rw [hsplit2, Nat.add_mul_div_left _ _ hS, Nat.div_eq_of_lt hz,
      Nat.zero_add]
  have hyy : (flatIndex S x y z / S) % S = y := by
    rw [hdivS, show x * S + y = y + S * x from by ring,
      Nat.add_mul_mod_self_left, Nat.mod_eq_of_lt hy]
  have hzz : flatIndex S x y z % S = z := by
    rw [hsplit2, Nat.add_mul_mod_self_left, Nat.mod_eq_of_lt hz]
  unfold decodeBlocks
  rw [List.getD_eq_getElem _ _ hlen]
  simp only [serializeBlocks, List.getElem_ofFn]
  rw [hxx, hyy, hzz]
  exact Int.toNat_ofNat _

theorem le_length_flatMap {α β : Type} (l : List α) (f : α → List β)
    (h : ∀ a ∈ l, 1 ≤ (f a).length) : l.length ≤ (l.flatMap f).length := by
  induction l with
  | nil => simp
  | cons hd tl ih =>
      rw [List.flatMap_cons, List.length_append, List.length_cons]
      have h1 := h hd (List.mem_cons_self _ _)
      have h2 := ih fun a ha => h a (List.mem_cons_of_mem _ ha)
      omega

theorem parseRecords_encode (S : Nat) (cs : List (IVec3 × Chunk)) :
    ∀ fuel, cs.length ≤ fuel →
      parseRecords S fuel (cs.flatMap (encodeRecord S)) =
        Except.ok (cs.map fun e =>
          (e.1, Chunk.mk (decodeBlocks S (serializeBlocks S e.2)) true)) := by
  induction cs with
  | nil =>
      intro fuel _
      cases fuel <;> rfl
  | cons e cs ih =>
      intro fuel hfuel
      obtain ⟨⟨ex, ey, ez⟩, ec⟩ := e
      cases fuel with
      | zero => simp at hfuel
      | succ f =>
          have hlen : (serializeBlocks S ec).length = S * S * S :=
            length_serializeBlocks S ec
          have htake : (serializeBlocks S ec ++
              cs.flatMap (encodeRecord S)).take (S * S * S) =
              serializeBlocks S ec := by
            rw [← hlen, List.take_left]
          have hdrop : (serializeBlocks S ec ++
              cs.flatMap (encodeRecord S)).drop (S * S * S) =
              cs.flatMap (encodeRecord S) := by
            rw [← hlen, List.drop_left]
          have hcond : S * S * S ≤ (serializeBlocks S ec ++
              cs.flatMap (encodeRecord S)).length := by
            rw [List.length_append, hlen]
            omega
          have hrec : cs.length ≤ f := by
            simp only [List.length_cons] at hfuel
            omega
          show parseRecords S (f + 1) (ex :: ey :: ez ::
            (serializeBlocks S ec ++ cs.flatMap (encodeRecord S))) = _
          simp only [parseRecords, if_pos hcond, htake, hdrop, ih f hrec]
          rfl

theorem findChunk_map_decode (S : Nat) (cs : List (IVec3 × Chunk))
    (q : IVec3) :
    findChunk (cs.map fun e =>
        (e.1, Chunk.mk (decodeBlocks S (serializeBlocks S e.2)) true)) q =
      (findChunk cs q).map fun c =>
        Chunk.mk (decodeBlocks S (serializeBlocks S c)) true := by
  induction cs with
  | nil => rfl
  | cons hd tl ih =>
      obtain ⟨k, c⟩ := hd
      by_cases hk : k = q
      · simp [findChunk, hk]
      · simp [findChunk, hk, ih]

theorem get_local_position_lt (S : Nat) (hS : 0 < S) (p : IVec3) :
    (get_local_position S p).1 < S ∧ (get_local_position S p).2.1 < S ∧
      (get_local_position S p).2.2 < S := by
  have hSpos : (0 : Int) < (S : Int) := by exact_mod_cast hS
  have hSne : (S : Int) ≠ 0 := ne_of_gt hSpos
  refine ⟨?_, ?_, ?_⟩ <;>
    exact (Int.toNat_lt (Int.emod_nonneg _ hSne)).mpr
      (Int.emod_lt_of_pos _ hSpos)

/-- C4: saving any world and loading the result yields a world whose
`get_block` agrees with the original at every world coordinate. -/
theorem claim_C4_save_load_roundtrip (w : World) (hS : 0 < w.side) :
    ∃ w2, load (save w) = Except.ok w2 ∧
      ∀ p : IVec3, w2.get_block p = w.get_block p := by
  refine ⟨World.mk w.side (w.chunks.map fun e =>
    (e.1, Chunk.mk (decodeBlocks w.side (serializeBlocks w.side e.2)) true)),
    ?_, ?_⟩
  · have hfuel : w.chunks.length ≤
        (w.chunks.flatMap (encodeRecord w.side)).length := by
      refine le_length_flatMap _ _ fun e he => ?_
      simp [encodeRecord]
    unfold load save
    dsimp only
    rw [if_pos rfl,
      if_pos (show (0 : Int) < (w.side : Int) by exact_mod_cast hS)]
    simp only [Int.toNat_ofNat]
    rw [parseRecords_encode w.side w.chunks
      (w.chunks.flatMap (encodeRecord w.side)).length hfuel]
  · intro p
    unfold World.get_block
    simp only
    rw [findChunk_map_decode]
    cases hfc : findChunk w.chunks (get_chunk_position w.side p) with
    | none => rfl
    | some c =>
        simp only [Option.map_some]
        obtain ⟨h1, h2, h3⟩ := get_local_position_lt w.side hS p
        exact decode_serialize w.side c _ _ _ h1 h2 h3

/-- Closed witness for C4: the round trip at a concrete one-chunk world. -/
theorem claim_C4_witness :
    ∃ w2, load (save (World.mk 16 [((0, 0, 0), soloChunk)])) =
        Except.ok w2 ∧
      ∀ p : IVec3, w2.get_block p =
        (World.mk 16 [((0, 0, 0), soloChunk)]).get_block p :=
  claim_C4_save_load_roundtrip (World.mk 16 [((0, 0, 0), soloChunk)])
    (by decide)

/-- C8: loading a save file whose header carries an unsupported format
version reports a structured load error; no world (in particular no
partially-populated one) is returned. -/
theorem claim_C8_unsupported_version_fails_closed (v s : Int)
    (rest : List Int) (hv : v ≠ FORMAT_VERSION) :
    load (v :: s :: rest) = Except.error "unsupported format version" := by
  unfold load
  dsimp only
  rw [if_neg hv]

/-- Closed witness for C8 at a concrete input: version 2 is rejected. -/
theorem claim_C8_witness :
    load (2 :: 16 :: []) = Except.error "unsupported format version" :=
  claim_C8_unsupported_version_fails_closed 2 16 [] (by decide)

/-- Rational 3-vector: exact embedding of the program's float positions. -/
abbrev QVec3 := ℚ × ℚ × ℚ

/-- Modelled from the spec: the maximum interaction range constant of the
ray caster (module `hit`, absent from the inspected sources). -/
def HIT_RANGE : ℚ := 3

/-- Modelled from the spec: DDA traversal state of `hit.Hit_ray` — current
voxel, accumulated distance, per-axis step sign, distance of the next
boundary crossing per axis (`none` when that axis is never crossed), and
crossing period per axis. -/
structure Hit_ray where
  block : IVec3
  distance : ℚ
  step_dir : IVec3
  tmax : Option ℚ × Option ℚ × Option ℚ
  tdelta : Option ℚ × Option ℚ × Option ℚ

/-- Per-axis initialization: step sign, first crossing distance, crossing
period; a zero direction component never crosses its axis. -/
def axisInit (o d : ℚ) : Int × Option ℚ × Option ℚ :=
  if d = 0 then (0, none, none)
  else if 0 < d then (1, some (((⌊o⌋ : ℚ) + 1 - o) / d), some (1 / d))
  else (-1, some ((o - (⌊o⌋ : ℚ)) / (-d)), some (1 / (-d)))

/-- Modelled from the spec: the ray starts inside the voxel containing its
origin with zero accumulated distance. -/
def Hit_ray.init (origin direction : QVec3) : Hit_ray :=
  { block := (⌊origin.1⌋, ⌊origin.2.1⌋, ⌊origin.2.2⌋),
    distance := 0,
    step_dir := ((axisInit origin.1 direction.1).1,
      (axisInit origin.2.1 direction.2.1).1,
      (axisInit origin.2.2 direction.2.2).1),
    tmax := ((axisInit origin.1 direction.1).2.1,
      (axisInit origin.2.1 direction.2.1).2.1,
      (axisInit origin.2.2 direction.2.2).2.1),
    tdelta := ((axisInit origin.1 direction.1).2.2,
      (axisInit origin.2.1 direction.2.1).2.2,
      (axisInit origin.2.2 direction.2.2).2.2) }

/-- Order on optional crossing distances, `none` acting as infinity. -/
def leOpt : Option ℚ → Option ℚ → Bool
  | none, _ => false
  | some _, none => true
  | some a, some b => decide (a ≤ b)

/-- Modelled from the spec: documented tie-break priority x before y before
z when several axes cross at the same distance. -/
def chooseAxis (t : Option ℚ × Option ℚ × Option ℚ) : Nat :=
  if leOpt t.1 t.2.1 && leOpt t.1 t.2.2 then 0
  else if leOpt t.2.1 t.2.2 then 1
  else 2

/-- Addition on optional crossing distances. -/
def addOpt : Option ℚ → Option ℚ → Option ℚ
  | some a, some b => some (a + b)
  | _, _ => none

/-- Modelled from the spec: `step` advances exactly one voxel boundary
crossing along the axis with the nearest crossing, invokes the callback with
the voxel being left and the voxel being entered, and returns whether the
callback signaled a stop. -/
def Hit_ray.step {σ : Type} (r : Hit_ray)
    (callback : IVec3 → IVec3 → σ → σ × Bool) (s : σ) :
    Hit_ray × σ × Bool :=
  let a := chooseAxis r.tmax
  let next : IVec3 :=
    if a = 0 then (r.block.1 + r.step_dir.1, r.block.2.1, r.block.2.2)
    else if a = 1 then (r.block.1, r.block.2.1 + r.step_dir.2.1, r.block.2.2)
    else (r.block.1, r.block.2.1, r.block.2.2 + r.step_dir.2.2)
  let dist : ℚ :=
    if a = 0 then (r.tmax.1).getD r.distance
    else if a = 1 then (r.tmax.2.1).getD r.distance
    else (r.tmax.2.2).getD r.distance
  let tmax2 :=
    if a = 0 then (addOpt r.tmax.1 r.tdelta.1, r.tmax.2.1, r.tmax.2.2)
    else if a = 1 then
      (r.tmax.1, addOpt r.tmax.2.1 r.tdelta.2.1, r.tmax.2.2)
    else (r.tmax.1, r.tmax.2.1, addOpt r.tmax.2.2 r.tdelta.2.2)
  let res := callback r.block next s
  ({ block := next, distance := dist, step_dir := r.step_dir,
     tmax := tmax2, tdelta := r.tdelta }, res.1, res.2)

/-- Modelled from the spec: the caller loops `step` while the accumulated
distance is below the maximum range, stopping early on a signaled hit; the
fuel bounds the iteration count. -/
def rayLoop {σ : Type} (callback : IVec3 → IVec3 → σ → σ × Bool) :
    Nat → Hit_ray → σ → Hit_ray × σ × Bool
  | 0, r, s => (r, s, false)
  | fuel + 1, r, s =>
      if r.distance < HIT_RANGE then
        match r.step callback s with
        | (r2, s2, true) => (r2, s2, true)
        | (r2, s2, false) => rayLoop callback fuel r2 s2
      else (r, s, false)

/-- The stop-on-solid callback of the spec: record the hit pair and stop as
soon as the voxel being entered holds a solid (non-air) block. -/
def solidStop (w : World) :
    IVec3 → IVec3 → Option (IVec3 × IVec3) → Option (IVec3 × IVec3) × Bool :=
  fun current next acc =>
    if w.get_block_number next ≠ 0 then (some (current, next), true)
    else (acc, false)

theorem rayLoop_succ {σ : Type} (cb : IVec3 → IVec3 → σ → σ × Bool)
    (fuel : Nat) (r : Hit_ray) (s : σ) :
    rayLoop cb (fuel + 1) r s =
      if r.distance < HIT_RANGE then
        match r.step cb s with
        | (r2, s2, true) => (r2, s2, true)
        | (r2, s2, false) => rayLoop cb fuel r2 s2
      else (r, s, false) := rfl

theorem step_x {σ : Type} (b1 b2 b3 : Int) (dist t td : ℚ)
    (cb : IVec3 → IVec3 → σ → σ × Bool) (s : σ) :
    Hit_ray.step ⟨(b1, b2, b3), dist, (1, 0, 0), (some t, none, none),
        (some td, none, none)⟩ cb s =
      (⟨(b1 + 1, b2, b3), t, (1, 0, 0), (some (t + td), none, none),
        (some td, none, none)⟩,
       (cb (b1, b2, b3) (b1 + 1, b2, b3) s).1,
       (cb (b1, b2, b3) (b1 + 1, b2, b3) s).2) := by
  unfold Hit_ray.step
  simp [chooseAxis, leOpt, addOpt]

theorem init_half_x :
    Hit_ray.init (1/2, 1/2, 1/2) (1, 0, 0) =
      ⟨(0, 0, 0), 0, (1, 0, 0), (some (1/2), none, none),
        (some 1, none, none)⟩ := by
  norm_num [Hit_ray.init, axisInit]

theorem hit_run :
    rayLoop (solidStop ((World.mk 16 []).set_block (3, 0, 0) 1)) 8
      (Hit_ray.init (1/2, 1/2, 1/2) (1, 0, 0)) none =
      (⟨(3, 0, 0), 5/2, (1, 0, 0), (some (7/2), none, none),
        (some 1, none, none)⟩, some ((2, 0, 0), (3, 0, 0)), true) := by
  have hcb1 : solidStop ((World.mk 16 []).set_block (3, 0, 0) 1)
      (0, 0, 0) (1, 0, 0) none = (none, false) := by decide
  have hcb2 : solidStop ((World.mk 16 []).set_block (3, 0, 0) 1)
      (1, 0, 0) (2, 0, 0) none = (none, false) := by decide
  have hcb3 : solidStop ((World.mk 16 []).set_block (3, 0, 0) 1)
      (2, 0, 0) (3, 0, 0) none =
      (some ((2, 0, 0), (3, 0, 0)), true) := by decide
  rw [init_half_x, show (8 : Nat) = 7 + 1 from rfl, rayLoop_succ,
    if_pos (show (0 : ℚ) < HIT_RANGE by norm_num [HIT_RANGE]), step_x]
  norm_num [hcb1, -Prod.mk_zero_zero, -Prod.mk_one_one]
  rw [show (7 : Nat) = 6 + 1 from rfl, rayLoop_succ,
    if_pos (show (1/2 : ℚ) < HIT_RANGE by norm_num [HIT_RANGE]), step_x]
  norm_num [hcb2, -Prod.mk_zero_zero, -Prod.mk_one_one]
  rw [show (6 : Nat) = 5 + 1 from rfl, rayLoop_succ,
    if_pos (show (3/2 : ℚ) < HIT_RANGE by norm_num [HIT_RANGE]), step_x]
  norm_num [hcb3, -Prod.mk_zero_zero, -Prod.mk_one_one]

theorem miss_run :
    rayLoop (solidStop (World.mk 16 [])) 8
      (Hit_ray.init (1/2, 1/2, 1/2) (1, 0, 0)) none =
      (⟨(4, 0, 0), 7/2, (1, 0, 0), (some (9/2), none, none),
        (some 1, none, none)⟩, none, false) := by
  have hm : ∀ cur nxt acc, solidStop (World.mk 16 []) cur nxt acc =
      (acc, false) := by
    intro cur nxt acc
    simp [solidStop, World.get_block_number, World.get_block, findChunk]
  rw [init_half_x, show (8 : Nat) = 7 + 1 from rfl, rayLoop_succ,
    if_pos (show (0 : ℚ) < HIT_RANGE by norm_num [HIT_RANGE]), step_x]
  norm_num [hm, -Prod.mk_zero_zero, -Prod.mk_one_one]
  rw [show (7 : Nat) = 6 + 1 from rfl, rayLoop_succ,
    if_pos (show (1/2 : ℚ) < HIT_RANGE by norm_num [HIT_RANGE]), step_x]
  norm_num [hm, -Prod.mk_zero_zero, -Prod.mk_one_one]
  rw [show (6 : Nat) = 5 + 1 from rfl, rayLoop_succ,
    if_pos (show (3/2 : ℚ) < HIT_RANGE by norm_num [HIT_RANGE]), step_x]
  norm_num [hm, -Prod.mk_zero_zero, -Prod.mk_one_one]
  rw [show (5 : Nat) = 4 + 1 from rfl, rayLoop_succ,
    if_pos (show (5/2 : ℚ) < HIT_RANGE by norm_num [HIT_RANGE]), step_x]
  norm_num [hm, -Prod.mk_zero_zero, -Prod.mk_one_one]
  rw [show (4 : Nat) = 3 + 1 from rfl, rayLoop_succ,
    if_neg (show ¬ (7/2 : ℚ) < HIT_RANGE by norm_num [HIT_RANGE])]

/-- C6: a ray from (0.5,0.5,0.5) along (1,0,0) in a world whose only solid
block sits at (3,0,0) is stepped while the accumulated distance is below the
maximum range; the callback is invoked with current=(2,0,0), next=(3,0,0)
and `step` returns true (hit) before the range is exceeded; with no solid
block in range no hit is signaled and traversal stops exactly when the
maximum range is reached. -/
theorem claim_C6_ray_cast_scenarios :
    (∃ r : Hit_ray,
      rayLoop (solidStop ((World.mk 16 []).set_block (3, 0, 0) 1)) 8
        (Hit_ray.init (1/2, 1/2, 1/2) (1, 0, 0)) none =
        (r, some ((2, 0, 0), (3, 0, 0)), true) ∧
      r.distance < HIT_RANGE) ∧
    (∃ r : Hit_ray,
      rayLoop (solidStop (World.mk 16 [])) 8
        (Hit_ray.init (1/2, 1/2, 1/2) (1, 0, 0)) none = (r, none, false) ∧
      r.distance = 7/2 ∧ HIT_RANGE ≤ r.distance ∧
      r.distance - 1 < HIT_RANGE) := by
  constructor
  · refine ⟨_, hit_run, ?_⟩
    norm_num [HIT_RANGE]
  · refine ⟨_, miss_run, ?_, ?_, ?_⟩ <;> norm_num [HIT_RANGE]

/-- Exact rational value of the float constant `math.tau`. -/
def tau : ℚ := 884279719003555 / 140737488355328

/-- State of the driver window touched by the embedded event handlers of
`community/main.py`: mouse-capture flags, camera rotation (yaw, pitch) and
position, the world, and the held block id. -/
structure WindowState where
  mouse_captured : Bool
  exclusive_mouse : Bool
  rotation : ℚ × ℚ
  position : QVec3
  world : World
  holding : Nat

/-- pyglet mouse button code. -/
def MOUSE_LEFT : Nat := 1

/-- pyglet mouse button code. -/
def MOUSE_MIDDLE : Nat := 2

/-- pyglet mouse button code. -/
def MOUSE_RIGHT : Nat := 4

/-- Fuel bound for the break/place ray-stepping while loop. -/
def RAY_FUEL : Nat := 64

/-- The driver's `hit_callback` inside `Window.on_mouse_press`
(main.py lines 120-123): right button places the held block at the current
voxel, left clears the next voxel, middle picks the next voxel's block id.
The Python callback returns None, a falsy stop signal. -/
def hit_callback (button : Nat) :
    IVec3 → IVec3 → World × Nat → (World × Nat) × Bool :=
  fun current next s =>
    if button = MOUSE_RIGHT then ((s.1.set_block current s.2, s.2), false)
    else if button = MOUSE_LEFT then ((s.1.set_block next 0, s.2), false)
    else if button = MOUSE_MIDDLE then
      ((s.1, s.1.get_block_number next), false)
    else (s, false)

/-- Embedding of `Window.on_mouse_press` (main.py lines 111-129).  When the
mouse is not captured the handler only captures it (sets both capture flags)
and returns; otherwise it builds a ray from the camera state and loops
`step` with `hit_callback` while the distance is below the range.  The
rotation-to-direction conversion lives in the absent `hit` module and is
passed as the collaborator `dirOfRotation`. -/
def on_mouse_press (dirOfRotation : ℚ × ℚ → QVec3) (st : WindowState)
    (button : Nat) : WindowState :=
  if st.mouse_captured = false then
    { st with mouse_captured := true, exclusive_mouse := true }
  else
    let r := Hit_ray.init st.position (dirOfRotation st.rotation)
    let res := rayLoop (hit_callback button) RAY_FUEL r
      (st.world, st.holding)
    { st with world := res.2.1.1, holding := res.2.1.2 }

/-- Embedding of `Window.on_mouse_motion` (main.py lines 131-138): when the
mouse is captured, both rotation components move by delta times sensitivity
and the pitch is clamped into [-tau/4, tau/4]. -/
def on_mouse_motion (st : WindowState) (delta_x delta_y : ℚ) : WindowState :=
  if st.mouse_captured then
    let sensitivity : ℚ := 0.004
    { st with rotation := (st.rotation.1 + delta_x * sensitivity,
        max (-(tau / 4)) (min (tau / 4)
          (st.rotation.2 + delta_y * sensitivity))) }
  else st

/-- Embedding of `Window.on_mouse_drag` (main.py lines 140-141): delegates
to `on_mouse_motion`. -/
def on_mouse_drag (st : WindowState) (delta_x delta_y : ℚ)
    (buttons modifiers : Nat) : WindowState :=
  on_mouse_motion st delta_x delta_y

/-- C9: after every `on_mouse_motion` event (and every `on_mouse_drag`
event, which delegates to it), the camera pitch lies within
[-tau/4, tau/4] — unconditionally when the mouse is captured (the handler
clamps), and preserved when it is not (the handler leaves rotation
unchanged). -/
theorem claim_C9_pitch_clamped (st : WindowState) (dx dy : ℚ)
    (buttons modifiers : Nat)
    (h : st.mouse_captured = true ∨
      (-(tau / 4) ≤ st.rotation.2 ∧ st.rotation.2 ≤ tau / 4)) :
    (-(tau / 4) ≤ (on_mouse_motion st dx dy).rotation.2 ∧
      (on_mouse_motion st dx dy).rotation.2 ≤ tau / 4) ∧
    (-(tau / 4) ≤ (on_mouse_drag st dx dy buttons modifiers).rotation.2 ∧
      (on_mouse_drag st dx dy buttons modifiers).rotation.2 ≤ tau / 4) := by
  have htau : -(tau / 4) ≤ tau / 4 := by norm_num [tau]
  have key : -(tau / 4) ≤ (on_mouse_motion st dx dy).rotation.2 ∧
      (on_mouse_motion st dx dy).rotation.2 ≤ tau / 4 := by
    unfold on_mouse_motion
    cases hc : st.mouse_captured with
    | true =>
        rw [if_pos rfl]
        exact ⟨le_max_left _ _, max_le htau (min_le_left _ _)⟩
    | false =>
        rw [if_neg Bool.false_ne_true]
        rcases h with h2 | h2
        · rw [hc] at h2
          exact absurd h2 Bool.false_ne_true
        · exact h2
  exact ⟨key, key⟩

/-- Closed witness for C9 at a concrete captured state. -/
theorem claim_C9_witness :
    (-(tau / 4) ≤ (on_mouse_motion (WindowState.mk true true (0, 0)
        (0, 0, 0) (World.mk 16 []) 5) 1 1).rotation.2 ∧
      (on_mouse_motion (WindowState.mk true true (0, 0) (0, 0, 0)
        (World.mk 16 []) 5) 1 1).rotation.2 ≤ tau / 4) ∧
    (-(tau / 4) ≤ (on_mouse_drag (WindowState.mk true true (0, 0) (0, 0, 0)
        (World.mk 16 []) 5) 1 1 0 0).rotation.2 ∧
      (on_mouse_drag (WindowState.mk true true (0, 0) (0, 0, 0)
        (World.mk 16 []) 5) 1 1 0 0).rotation.2 ≤ tau / 4) :=
  claim_C9_pitch_clamped (WindowState.mk true true (0, 0) (0, 0, 0)
    (World.mk 16 []) 5) 1 1 0 0 (Or.inl rfl)

/-- C10: a mouse press received while the mouse is not captured only
captures the mouse (sets the capture and exclusive flags) and returns
without casting a ray: the world, the held block id, and the camera state
are unchanged. -/
theorem claim_C10_uncaptured_press_only_captures
    (dirOfRotation : ℚ × ℚ → QVec3) (st : WindowState) (button : Nat)
    (h : st.mouse_captured = false) :
    on_mouse_press dirOfRotation st button =
      { st with mouse_captured := true, exclusive_mouse := true } ∧
    (on_mouse_press dirOfRotation st button).world = st.world ∧
    (on_mouse_press dirOfRotation st button).holding = st.holding ∧
    (on_mouse_press dirOfRotation st button).rotation = st.rotation ∧
    (on_mouse_press dirOfRotation st button).position = st.position ∧
    (on_mouse_press dirOfRotation st button).mouse_captured = true ∧
    (on_mouse_press dirOfRotation st button).exclusive_mouse = true := by
  have heq : on_mouse_press dirOfRotation st button =
      { st with mouse_captured := true, exclusive_mouse := true } := by
    unfold on_mouse_press
    rw [if_pos h]
  refine ⟨heq, ?_, ?_, ?_, ?_, ?_, ?_⟩ <;> rw [heq]

/-- Closed witness for C10 at a concrete uncaptured state. -/
theorem claim_C10_witness :
    on_mouse_press (fun _ => (1, 0, 0)) (WindowState.mk false false (0, 0)
        (1/2, 1/2, 1/2) (World.mk 16 []) 5) MOUSE_RIGHT =
      { WindowState.mk false false (0, 0) (1/2, 1/2, 1/2)
          (World.mk 16 []) 5 with
        mouse_captured := true, exclusive_mouse := true } :=
  (claim_C10_uncaptured_press_only_captures (fun _ => (1, 0, 0))
    (WindowState.mk false false (0, 0) (1/2, 1/2, 1/2) (World.mk 16 []) 5)
    MOUSE_RIGHT rfl).1
